import Mathlib

/-!
Verification of the opensearch-py bulk/scan/reindex helper layer.

The repository under verification ships a generated search-engine client
whose one algorithmic subsystem is the helper layer: `streaming_bulk`
(chunking, retry-with-backoff on 429 rejection, per-item outcome
reporting), `scan` (scroll-cursor pagination with a shard-success
threshold and guaranteed cursor cleanup) and `reindex` (scan composed
with bulk). The helper implementation itself is not part of the source
tree available here — only its test suites are — so every definition of
that layer below is modelled from the specification document, with the
shapes cross-checked against the concrete expectations recorded in
`test_opensearchpy/test_server/test_helpers/test_actions.py` and its
async twin (call counts, per-item outcome lists, synthesized failure
fragments, clear-scroll call counts).

Machine integers do not occur: every count in the modelled layer is an
unbounded Python int, so `Nat` is the faithful carrier. Exceptions are
modelled with `Except`/`Option`, the streaming generators as the list of
outcomes they yield together with the observable side effects (number of
underlying `bulk`/`scroll`/`clear_scroll` calls, backoff waits, raised
error, if any).
-/

/-! ## Transport layer and operations (spec §3, §6) -/

/-- Modelled from the spec: the transport error object raised by the
client on a batch-level failure; it "exposes `status_code`" (§6) and a
message used for the synthesized error description. -/
structure TransportError where
  status_code : Nat
  message : String
deriving DecidableEq

/-- Modelled from the spec: one document operation (§3 "Operation"),
after expansion: an op type (`index|create|update|delete`), target
index, optional id and routing, and an optional body. The payload type
`α` is abstract — the pipeline never inspects it, matching §3's
immutability invariant. -/
structure Op (α : Type) where
  op_type : String := "index"
  index : String := ""
  id : Option Nat := none
  routing : Option Nat := none
  body : Option α := none
deriving DecidableEq

/-- Modelled from the spec: `BulkResult` (§3) — the per-item tagged
outcome. `item` is a fragment of a real server response (op type and
per-item status); `transportFailure` is the failure synthesized when the
whole bulk call raised before any per-item response existed (§4.2 step
2), carrying the original operation (hence its `data`), an error
description, the transport status code and the exception object. -/
inductive BulkResult (α : Type) where
  | item : Op α → Nat → BulkResult α
  | transportFailure : Op α → String → Nat → TransportError → BulkResult α
deriving DecidableEq

/-- The operation an outcome reports on. -/
def BulkResult.op : BulkResult α → Op α
  | .item o _ => o
  | .transportFailure o _ _ _ => o

/-- Modelled from the spec: the error description string a synthesized
failure carries for a transport error (§4.2 step 2). -/
def errorDescription (e : TransportError) : String :=
  "TransportError(" ++ toString e.status_code ++ ", " ++ e.message ++ ")"

/-- Modelled from the spec: the Failure synthesized for one item of a
batch whose bulk call raised `e` (§4.2 step 2): it carries the original
operation, the transport error description, its status code and the
exception object itself. -/
def synthFailure (e : TransportError) (o : Op α) : BulkResult α :=
  .transportFailure o (errorDescription e) e.status_code e

/-- Modelled from the spec: errors the pipeline can raise — a propagated
transport failure (§4.2 step 2) or the aggregate error carrying the list
of failed item records (§4.2 step 5). -/
inductive BulkError (α : Type) where
  | transport : TransportError → BulkError α
  | bulkIndex : List (BulkResult α) → BulkError α
deriving DecidableEq

/-- Modelled from the spec: the narrow client interface consumed by the
bulk path (§6): one `bulk` call, taking the 1-based number of the call
and the batch, returning either per-item statuses (in submission order)
or raising a transport error. The call number stands for the hidden
server state the tests drive through `FailingBulkClient`. -/
def Client (α : Type) : Type :=
  Nat → List (Op α) → Except TransportError (List Nat)

/-- A server that accepts every item with status 200. -/
def alwaysOkClient : Client α := fun _ ops => .ok (ops.map fun _ => 200)

/-- The test suite's `FailingBulkClient`: raises `fail_with` on the call
numbers listed in `fail_at`, and otherwise defers to the inner client. -/
def failingBulkClient (fail_at : List Nat) (fail_with : TransportError)
    (inner : Client α) : Client α :=
  fun n ops => if n ∈ fail_at then .error fail_with else inner n ops

/-! ## Chunker (spec §4.1) -/

/-- One step of the chunk accumulator: `(finished batches, current
batch, current batch byte size)`. The current batch is flushed when it
already holds `maxItems` items or when appending the next item would
exceed the byte bound; an item whose own size exceeds the bound still
forms its own (singleton) batch. -/
def chunkStep (sz : α → Nat) (maxItems maxBytes : Nat)
    (acc : List (List α) × List α × Nat) (op : α) :
    List (List α) × List α × Nat :=
  match acc with
  | (done, [], _) => (done, [op], sz op)
  | (done, c :: cs, bytes) =>
    if maxItems ≤ (c :: cs).length ∨ maxBytes < bytes + sz op then
      (done ++ [c :: cs], [op], sz op)
    else (done, (c :: cs) ++ [op], bytes + sz op)

/-- Modelled from the spec: the Chunker (§4.1) — group a sequence of
operations into batches bounded by `maxItems` and `maxBytes`. -/
def chunkActions (sz : α → Nat) (maxItems maxBytes : Nat)
    (ops : List α) : List (List α) :=
  match ops.foldl (chunkStep sz maxItems maxBytes) ([], [], 0) with
  | (done, [], _) => done
  | (done, c :: cs, _) => done ++ [c :: cs]

/-! ## BulkExecutor (spec §4.2) -/

/-- Tuning and policy knobs of the bulk pipeline, with the library's
documented defaults. -/
structure BulkCfg where
  max_retries : Nat := 0
  initial_backoff : Nat := 2
  max_backoff : Nat := 600
  raise_on_exception : Bool := true
  raise_on_error : Bool := true
  ignore_status : List Nat := []

/-- The observable result of running the pipeline: the stream of
`(ok, result)` outcomes in emission order, the number of underlying
bulk calls, the raised error if any (outcomes emitted before the raise
are kept, matching generator semantics), and the backoff waits slept. -/
structure BulkRun (α : Type) where
  emitted : List (Bool × BulkResult α)
  calls : Nat
  err : Option (BulkError α)
  waits : List Nat
deriving DecidableEq

/-- Modelled from the spec: the backoff before a retry round (§4.2 step
4): `initial_backoff * 2^(retry_number)` capped by `max_backoff`, the
retry-round count starting at 0. `rem` is the number of retry rounds
still available when the wait happens, so `max_retries - rem` is the
0-based retry number. -/
def backoffWait (cfg : BulkCfg) (rem : Nat) : Nat :=
  min cfg.max_backoff (cfg.initial_backoff * 2 ^ (cfg.max_retries - rem))

/-- Triage of one attempt's per-item server statuses (§4.2 steps 3–4):
in item order, a 2xx item is finalized ok, a 429 item is set aside for
the retry sub-batch while retry rounds remain, and any other non-2xx
item is finalized as a Failure (collected for the aggregate error unless
its status is in `ignore`). Returns
`(yielded outcomes, retry sub-batch, aggregate-error records)`. -/
def successItems (canRetry : Bool) (ignore : List Nat) :
    List (Op α × Nat) →
    List (Bool × BulkResult α) × List (Op α) × List (BulkResult α)
  | [] => ([], [], [])
  | (o, s) :: rest =>
    let r := successItems canRetry ignore rest
    if 200 ≤ s ∧ s < 300 then ((true, .item o s) :: r.1, r.2.1, r.2.2)
    else if s = 429 ∧ canRetry = true then (r.1, o :: r.2.1, r.2.2)
    else ((false, .item o s) :: r.1, r.2.1,
      if s ∈ ignore then r.2.2 else .item o s :: r.2.2)

/-- Triage when the whole bulk call raised and `raise_on_exception` is
off (§4.2 step 2): every item becomes a synthesized Failure; a failure
whose transport status is the 429 rejection code is set aside for retry
while rounds remain, the rest are yielded (and collected for the
aggregate unless ignored). -/
def errorItems (canRetry : Bool) (ignore : List Nat) (e : TransportError) :
    List (Op α) →
    List (Bool × BulkResult α) × List (Op α) × List (BulkResult α)
  | [] => ([], [], [])
  | o :: rest =>
    let r := errorItems canRetry ignore e rest
    if e.status_code = 429 ∧ canRetry = true then (r.1, o :: r.2.1, r.2.2)
    else ((false, synthFailure e o) :: r.1, r.2.1,
      if e.status_code ∈ ignore then r.2.2 else synthFailure e o :: r.2.2)

/-- The aggregate error check at the end of a batch (§4.2 step 5): once
every item's fate is resolved, raise the collected failure records iff
`raise_on_error` is set and some non-ignored failure exists. -/
def chunkErr (cfg : BulkCfg) (agg : List (BulkResult α)) :
    Option (BulkError α) :=
  match cfg.raise_on_error, agg with
  | true, a :: rest => some (.bulkIndex (a :: rest))
  | _, _ => none

/-- Modelled from the spec: the BulkExecutor loop for one batch (§4.2).
`rem` is the number of retry rounds still available (initially
`max_retries`), `calls` the bulk calls made so far by earlier batches,
`agg` the failure records collected so far for the aggregate error.

One round: send the batch (step 1). If the call raises and
`raise_on_exception` is set, a 429 is suppressed and the whole batch
retried while rounds remain, anything else (or round exhaustion)
propagates (step 2 / failure semantics); with `raise_on_exception` off
the raise degrades to per-item synthesized failures which re-enter the
per-item triage. If the call returns, per-item statuses are triaged
(steps 3–4); a non-empty retry sub-batch is re-sent after the backoff
wait, items finalized earlier having been yielded already. -/
def runChunk (cfg : BulkCfg) (client : Client α) :
    Nat → Nat → List (Op α) → List (BulkResult α) → BulkRun α
  | 0, calls, ops, agg =>
    match client (calls + 1) ops with
    | .error e =>
      if cfg.raise_on_exception = true then
        ⟨[], calls + 1, some (.transport e), []⟩
      else
        let r := errorItems false cfg.ignore_status e ops
        ⟨r.1, calls + 1, chunkErr cfg (agg ++ r.2.2), []⟩
    | .ok statuses =>
      let r := successItems false cfg.ignore_status (ops.zip statuses)
      ⟨r.1, calls + 1, chunkErr cfg (agg ++ r.2.2), []⟩
  | rem1 + 1, calls, ops, agg =>
    match client (calls + 1) ops with
    | .error e =>
      if cfg.raise_on_exception = true then
        if e.status_code = 429 then
          let sub := runChunk cfg client rem1 (calls + 1) ops agg
          ⟨sub.emitted, sub.calls, sub.err,
            backoffWait cfg (rem1 + 1) :: sub.waits⟩
        else ⟨[], calls + 1, some (.transport e), []⟩
      else
        let r := errorItems true cfg.ignore_status e ops
        match r.2.1 with
        | [] => ⟨r.1, calls + 1, chunkErr cfg (agg ++ r.2.2), []⟩
        | o :: rs =>
          let sub := runChunk cfg client rem1 (calls + 1) (o :: rs) (agg ++ r.2.2)
          ⟨r.1 ++ sub.emitted, sub.calls, sub.err,
            backoffWait cfg (rem1 + 1) :: sub.waits⟩
    | .ok statuses =>
      let r := successItems true cfg.ignore_status (ops.zip statuses)
      match r.2.1 with
      | [] => ⟨r.1, calls + 1, chunkErr cfg (agg ++ r.2.2), []⟩
      | o :: rs =>
        let sub := runChunk cfg client rem1 (calls + 1) (o :: rs) (agg ++ r.2.2)
        ⟨r.1 ++ sub.emitted, sub.calls, sub.err,
          backoffWait cfg (rem1 + 1) :: sub.waits⟩

/-- Processing of one batch inside the top-level fold: a chunk runs only
while no earlier chunk raised; its outcomes and waits are appended and
the call counter threaded through. -/
def chunkFold (cfg : BulkCfg) (client : Client α)
    (run : BulkRun α) (chunk : List (Op α)) : BulkRun α :=
  match run.err with
  | some _ => run
  | none =>
    let r := runChunk cfg client cfg.max_retries run.calls chunk []
    ⟨run.emitted ++ r.emitted, r.calls, r.err, run.waits ++ r.waits⟩

/-- Modelled from the spec: `streaming_bulk` (§2, §4.1–§4.2) — chunk the
expanded operations and run each batch through the BulkExecutor in
order, streaming per-item `(ok, result)` outcomes. -/
def streaming_bulk (cfg : BulkCfg) (client : Client α) (sz : Op α → Nat)
    (chunk_size max_chunk_bytes : Nat) (actions : List (Op α)) : BulkRun α :=
  (chunkActions sz chunk_size max_chunk_bytes actions).foldl
    (chunkFold cfg client) ⟨[], 0, none, []⟩

/-- The operations the emitted outcomes report on, in emission order. -/
def emittedOps (run : BulkRun α) : List (Op α) :=
  run.emitted.map fun y => y.2.op

/-! ## Generic facts about the bulk pipeline -/

/-- A client is well behaved when a successful bulk response carries one
status per submitted item, in submission order (§6). -/
def WellBehaved (client : Client α) : Prop :=
  ∀ n ops r, client n ops = .ok r → r.length = ops.length

theorem alwaysOkClient_wb : WellBehaved (alwaysOkClient (α := α)) := by
  intro n ops r h
  simp only [alwaysOkClient, Except.ok.injEq] at h
  simp [← h]

/-- Every item of one triaged server response lands either in the
yielded outcomes or in the retry sub-batch, and nowhere else. -/
theorem successItems_op_perm (cr : Bool) (ig : List Nat)
    (pairs : List (Op α × Nat)) :
    List.Perm
      (((successItems cr ig pairs).1.map fun y => y.2.op)
        ++ (successItems cr ig pairs).2.1)
      (pairs.map Prod.fst) := by
  induction pairs with
  | nil => simp [successItems]
  | cons p rest ih =>
    obtain ⟨o, s⟩ := p
    by_cases h1 : 200 ≤ s ∧ s < 300
    · simp only [successItems, if_pos h1, List.map_cons, BulkResult.op,
        List.cons_append, List.map]
      exact ih.cons o
    · by_cases h2 : s = 429 ∧ cr = true
      · simp only [successItems, if_neg h1, if_pos h2]
        exact List.perm_middle.trans (ih.cons o)
      · simp only [successItems, if_neg h1, if_neg h2, List.map_cons,
          BulkResult.op, List.cons_append, List.map]
        exact ih.cons o

/-- Same partition fact for a synthesized-failure triage. -/
theorem errorItems_op_perm (cr : Bool) (ig : List Nat) (e : TransportError)
    (ops : List (Op α)) :
    List.Perm
      (((errorItems cr ig e ops).1.map fun y => y.2.op)
        ++ (errorItems cr ig e ops).2.1)
      ops := by
  induction ops with
  | nil => simp [errorItems]
  | cons o rest ih =>
    by_cases h : e.status_code = 429 ∧ cr = true
    · simp only [errorItems, if_pos h]
      exact List.perm_middle.trans (ih.cons o)
    · simp only [errorItems, if_neg h, synthFailure, List.map_cons,
        BulkResult.op, List.cons_append, List.map]
      exact ih.cons o

/-- With no retry rounds left nothing is set aside for retry. -/
theorem successItems_retry_nil (ig : List Nat) (pairs : List (Op α × Nat)) :
    (successItems false ig pairs).2.1 = [] := by
  induction pairs with
  | nil => rfl
  | cons p rest ih =>
    obtain ⟨o, s⟩ := p
    by_cases h1 : 200 ≤ s ∧ s < 300
    · simp [successItems, if_pos h1, ih]
    · have h2 : ¬(s = 429 ∧ (false : Bool) = true) := by simp
      simp [successItems, if_neg h1, if_neg h2, ih]

/-- With no retry rounds left nothing is set aside for retry. -/
theorem errorItems_retry_nil (ig : List Nat) (e : TransportError)
    (ops : List (Op α)) :
    (errorItems false ig e ops).2.1 = [] := by
  induction ops with
  | nil => rfl
  | cons o rest ih =>
    have h : ¬(e.status_code = 429 ∧ (false : Bool) = true) := by simp
    simp [errorItems, if_neg h, ih]

/-- With no retry rounds left every item is yielded, in input order. -/
theorem successItems_yield_all (ig : List Nat) (pairs : List (Op α × Nat)) :
    ((successItems false ig pairs).1.map fun y => y.2.op) = pairs.map Prod.fst := by
  induction pairs with
  | nil => rfl
  | cons p rest ih =>
    obtain ⟨o, s⟩ := p
    by_cases h1 : 200 ≤ s ∧ s < 300
    · simp only [successItems, if_pos h1, List.map_cons, List.map]
      exact congrArg (fun t => o :: t) ih
    · have h2 : ¬(s = 429 ∧ (false : Bool) = true) := by simp
      simp only [successItems, if_neg h1, if_neg h2, List.map_cons, List.map]
      exact congrArg (fun t => o :: t) ih

/-- With no retry rounds left every item is yielded, in input order. -/
theorem errorItems_yield_all (ig : List Nat) (e : TransportError)
    (ops : List (Op α)) :
    ((errorItems false ig e ops).1.map fun y => y.2.op) = ops := by
  induction ops with
  | nil => rfl
  | cons o rest ih =>
    have h : ¬(e.status_code = 429 ∧ (false : Bool) = true) := by simp
    simp only [errorItems, if_neg h, List.map_cons, List.map]
    exact congrArg (fun t => o :: t) ih

/-- Running one batch to completion without a raised error emits exactly
one outcome per item of the batch — the reported operations are a
permutation of the batch. -/
theorem runChunk_op_perm (cfg : BulkCfg) (client : Client α)
    (hw : WellBehaved client) :
    ∀ rem calls ops agg,
      (runChunk cfg client rem calls ops agg).err = none →
      List.Perm (emittedOps (runChunk cfg client rem calls ops agg)) ops := by
  intro rem
  induction rem with
  | zero =>
    intro calls ops agg herr
    rw [runChunk] at herr ⊢
    cases hcl : client (calls + 1) ops with
    | error e =>
      simp only [hcl] at herr ⊢
      by_cases hre : cfg.raise_on_exception = true
      · simp [hre] at herr
      · simp only [if_neg hre] at herr ⊢
        have hperm := errorItems_op_perm false cfg.ignore_status e ops
        rw [errorItems_retry_nil, List.append_nil] at hperm
        simpa [emittedOps] using hperm
    | ok statuses =>
      have hops : (ops.zip statuses).map Prod.fst = ops :=
        List.map_fst_zip ops statuses (le_of_eq (hw _ _ _ hcl).symm)
      simp only [hcl] at herr ⊢
      have hperm := successItems_op_perm false cfg.ignore_status (ops.zip statuses)
      rw [successItems_retry_nil, List.append_nil, hops] at hperm
      simpa [emittedOps] using hperm
  | succ n ih =>
    intro calls ops agg herr
    rw [runChunk] at herr ⊢
    cases hcl : client (calls + 1) ops with
    | error e =>
      simp only [hcl] at herr ⊢
      by_cases hre : cfg.raise_on_exception = true
      · simp only [if_pos hre] at herr ⊢
        by_cases h429 : e.status_code = 429
        · simp only [if_pos h429] at herr ⊢
          exact ih (calls + 1) ops agg herr
        · simp [h429] at herr
      · simp only [if_neg hre] at herr ⊢
        have hperm := errorItems_op_perm true cfg.ignore_status e ops
        cases hsplit : (errorItems true cfg.ignore_status e ops).2.1 with
        | nil =>
          rw [hsplit, List.append_nil] at hperm
          simp only [hsplit] at herr ⊢
          simpa [emittedOps] using hperm
        | cons o rs =>
          rw [hsplit] at hperm
          simp only [hsplit] at herr ⊢
          have hsub := ih (calls + 1) (o :: rs)
            (agg ++ (errorItems true cfg.ignore_status e ops).2.2) herr
          simp only [emittedOps] at hsub ⊢
          rw [List.map_append]
          exact (List.Perm.append_left _ hsub).trans hperm
    | ok statuses =>
      have hops : (ops.zip statuses).map Prod.fst = ops :=
        List.map_fst_zip ops statuses (le_of_eq (hw _ _ _ hcl).symm)
      simp only [hcl] at herr ⊢
      have hperm := successItems_op_perm true cfg.ignore_status (ops.zip statuses)
      rw [hops] at hperm
      cases hsplit : (successItems true cfg.ignore_status (ops.zip statuses)).2.1 with
      | nil =>
        rw [hsplit, List.append_nil] at hperm
        simp only [hsplit] at herr ⊢
        simpa [emittedOps] using hperm
      | cons o rs =>
        rw [hsplit] at hperm
        simp only [hsplit] at herr ⊢
        have hsub := ih (calls + 1) (o :: rs)
          (agg ++ (successItems true cfg.ignore_status (ops.zip statuses)).2.2) herr
        simp only [emittedOps] at hsub ⊢
        rw [List.map_append]
        exact (List.Perm.append_left _ hsub).trans hperm

/-- With no retry round configured one batch emits its outcomes in
exactly the batch order. -/
theorem runChunk_zero_order (cfg : BulkCfg) (client : Client α)
    (hw : WellBehaved client) (calls : Nat) (ops : List (Op α))
    (agg : List (BulkResult α))
    (herr : (runChunk cfg client 0 calls ops agg).err = none) :
    emittedOps (runChunk cfg client 0 calls ops agg) = ops := by
  rw [runChunk] at herr ⊢
  cases hcl : client (calls + 1) ops with
  | error e =>
    simp only [hcl] at herr ⊢
    by_cases hre : cfg.raise_on_exception = true
    · simp [hre] at herr
    · simp only [if_neg hre] at herr ⊢
      simpa [emittedOps] using errorItems_yield_all cfg.ignore_status e ops
  | ok statuses =>
    have hops : (ops.zip statuses).map Prod.fst = ops :=
      List.map_fst_zip ops statuses (le_of_eq (hw _ _ _ hcl).symm)
    simp only [hcl] at herr ⊢
    have h := successItems_yield_all cfg.ignore_status (ops.zip statuses)
    rw [hops] at h
    simpa [emittedOps] using h

/-- A raised error stops the pipeline: later batches are not touched. -/
theorem foldl_chunkFold_err (cfg : BulkCfg) (client : Client α)
    (run : BulkRun α) (e : BulkError α) (h : run.err = some e) :
    ∀ chunks : List (List (Op α)),
      chunks.foldl (chunkFold cfg client) run = run := by
  intro chunks
  induction chunks with
  | nil => rfl
  | cons c cs ih =>
    simp only [List.foldl_cons]
    rw [show chunkFold cfg client run c = run from by simp [chunkFold, h]]
    exact ih

/-- Folding batches through the executor emits, without a raised error,
one outcome per item of the concatenation of the batches, as a
permutation. -/
theorem foldl_chunkFold_perm (cfg : BulkCfg) (client : Client α)
    (hw : WellBehaved client) :
    ∀ (chunks : List (List (Op α))) (run : BulkRun α),
      (chunks.foldl (chunkFold cfg client) run).err = none →
      List.Perm (emittedOps (chunks.foldl (chunkFold cfg client) run))
        (emittedOps run ++ chunks.flatten) := by
  intro chunks
  induction chunks with
  | nil => intro run h; simp
  | cons c cs ih =>
    intro run h
    simp only [List.foldl_cons] at h ⊢
    cases hre : run.err with
    | some e =>
      rw [show chunkFold cfg client run c = run from by simp [chunkFold, hre]]
        at h ⊢
      rw [foldl_chunkFold_err cfg client run e hre cs] at h
      simp [hre] at h
    | none =>
      have hcf : chunkFold cfg client run c =
          ⟨run.emitted ++ (runChunk cfg client cfg.max_retries run.calls c []).emitted,
           (runChunk cfg client cfg.max_retries run.calls c []).calls,
           (runChunk cfg client cfg.max_retries run.calls c []).err,
           run.waits ++ (runChunk cfg client cfg.max_retries run.calls c []).waits⟩ := by
        simp [chunkFold, hre]
      rw [hcf] at h ⊢
      cases hr : (runChunk cfg client cfg.max_retries run.calls c []).err with
      | some e =>
        rw [foldl_chunkFold_err cfg client _ e (by simpa using hr) cs] at h
        simp [hr] at h
      | none =>
        have hch := runChunk_op_perm cfg client hw cfg.max_retries run.calls c [] hr
        rw [hr] at h
        refine (ih _ h).trans ?_
        simp only [emittedOps, List.map_append, List.flatten_cons] at hch ⊢
        rw [List.append_assoc]
        exact List.Perm.append_left _ (hch.append (List.Perm.refl _))

/-- Folding batches with no retry round emits outcomes in exactly
concatenation order. -/
theorem foldl_chunkFold_order (cfg : BulkCfg) (client : Client α)
    (hw : WellBehaved client) (hmr : cfg.max_retries = 0) :
    ∀ (chunks : List (List (Op α))) (run : BulkRun α),
      (chunks.foldl (chunkFold cfg client) run).err = none →
      emittedOps (chunks.foldl (chunkFold cfg client) run)
        = emittedOps run ++ chunks.flatten := by
  intro chunks
  induction chunks with
  | nil => intro run h; simp
  | cons c cs ih =>
    intro run h
    simp only [List.foldl_cons] at h ⊢
    cases hre : run.err with
    | some e =>
      rw [show chunkFold cfg client run c = run from by simp [chunkFold, hre]]
        at h ⊢
      rw [foldl_chunkFold_err cfg client run e hre cs] at h
      simp [hre] at h
    | none =>
      have hcf : chunkFold cfg client run c =
          ⟨run.emitted ++ (runChunk cfg client cfg.max_retries run.calls c []).emitted,
           (runChunk cfg client cfg.max_retries run.calls c []).calls,
           (runChunk cfg client cfg.max_retries run.calls c []).err,
           run.waits ++ (runChunk cfg client cfg.max_retries run.calls c []).waits⟩ := by
        simp [chunkFold, hre]
      rw [hcf] at h ⊢
      cases hr : (runChunk cfg client cfg.max_retries run.calls c []).err with
      | some e =>
        rw [foldl_chunkFold_err cfg client _ e (by simpa using hr) cs] at h
        simp [hr] at h
      | none =>
        have hch : emittedOps (runChunk cfg client cfg.max_retries run.calls c []) = c := by
          rw [hmr] at hr ⊢
          exact runChunk_zero_order cfg client hw run.calls c [] hr
        rw [hr] at h
        rw [ih _ h]
        simp only [emittedOps, List.map_append, List.flatten_cons] at hch ⊢
        rw [List.append_assoc, hch]

/-- Invariant of the chunk accumulator: finished batches plus the
current batch always concatenate to the consumed input. -/
theorem chunkFoldAcc (sz : α → Nat) (mi mb : Nat) :
    ∀ (ops : List α) (done : List (List α)) (cur : List α) (bytes : Nat),
      (ops.foldl (chunkStep sz mi mb) (done, cur, bytes)).1.flatten
        ++ (ops.foldl (chunkStep sz mi mb) (done, cur, bytes)).2.1
      = done.flatten ++ (cur ++ ops) := by
  intro ops
  induction ops with
  | nil => intro done cur bytes; simp
  | cons o rest ih =>
    intro done cur bytes
    simp only [List.foldl_cons]
    cases cur with
    | nil =>
      rw [show chunkStep sz mi mb (done, [], bytes) o = (done, [o], sz o)
        from rfl]
      rw [ih]
      simp
    | cons c cs =>
      by_cases hf : mi ≤ (c :: cs).length ∨ mb < bytes + sz o
      · have hstep : chunkStep sz mi mb (done, c :: cs, bytes) o
            = (done ++ [c :: cs], [o], sz o) := by
          simp only [chunkStep]
          rw [if_pos hf]
        rw [hstep, ih]
        simp
      · have hstep : chunkStep sz mi mb (done, c :: cs, bytes) o
            = (done, (c :: cs) ++ [o], bytes + sz o) := by
          simp only [chunkStep]
          rw [if_neg hf]
        rw [hstep, ih]
        simp

/-- The Chunker partitions its input: the batches concatenate back to
the input sequence (nothing dropped, nothing duplicated, §4.1). -/
theorem chunkActions_join (sz : α → Nat) (mi mb : Nat) (ops : List α) :
    (chunkActions sz mi mb ops).flatten = ops := by
  have h := chunkFoldAcc sz mi mb ops [] [] 0
  unfold chunkActions
  cases hres : ops.foldl (chunkStep sz mi mb) ([], [], 0) with
  | mk done rest =>
    obtain ⟨cur, bytes⟩ := rest
    rw [hres] at h
    simp only [List.flatten_nil, List.nil_append] at h
    cases cur with
    | nil => simpa using h
    | cons c cs =>
      simp only [List.flatten_append, List.flatten_cons, List.flatten_nil,
        List.append_nil]
      exact h

/-! ## Concrete operations mirroring the test scenarios -/

/-- The three documents of the retry tests (`_index "i"`, ids 47/45/42,
body `{"f": "v"}` abstracted to an opaque payload). -/
def docA : Op Nat := { index := "i", id := some 47, body := some 1 }

/-- Second test document. -/
def docB : Op Nat := { index := "i", id := some 45, body := some 1 }

/-- Third test document. -/
def docC : Op Nat := { index := "i", id := some 42, body := some 1 }

/-! ## Claim C1 — one outcome per input item -/

/-- C1 as stated is false on the modelled pipeline: in a 2-item chunk
whose first item is rejected with 429 (and retried successfully) while
the second succeeds at once, the non-rejected item is finalized
immediately (§4.2 step 4), so the second item's outcome is emitted
before the retried first item's outcome — one outcome per item, but not
in input order. -/
theorem streaming_bulk_reorders_on_partial_retry :
    (streaming_bulk
        { max_retries := 1, initial_backoff := 0, raise_on_exception := false,
          raise_on_error := false }
        (fun n ops => if n = 1 then .ok [429, 200] else .ok (ops.map fun _ => 200))
        (fun _ => 1) 500 100000 [docA, docB]).err = none
    ∧ emittedOps (streaming_bulk
        { max_retries := 1, initial_backoff := 0, raise_on_exception := false,
          raise_on_error := false }
        (fun n ops => if n = 1 then .ok [429, 200] else .ok (ops.map fun _ => 200))
        (fun _ => 1) 500 100000 [docA, docB]) = [docB, docA]
    ∧ [docB, docA] ≠ [docA, docB] := by
  refine ⟨by decide, by decide, by decide⟩

/-- C1 (amended): for every operation sequence, a run that completes
without raising emits exactly one `(ok, result)` outcome per input
operation — the reported operations are a permutation of the input,
regardless of chunking, retries or per-item failures — and the outcomes
are in input order whenever no retry round is configured
(`max_retries = 0`); a retried item's outcome may be emitted after those
of later items of its chunk (§4.2 step 4 finalizes non-rejected items
immediately). -/
theorem streaming_bulk_one_outcome_per_item (cfg : BulkCfg)
    (client : Client α) (sz : Op α → Nat) (ci mb : Nat)
    (actions : List (Op α)) (hw : WellBehaved client)
    (herr : (streaming_bulk cfg client sz ci mb actions).err = none) :
    List.Perm (emittedOps (streaming_bulk cfg client sz ci mb actions)) actions
    ∧ (cfg.max_retries = 0 →
        emittedOps (streaming_bulk cfg client sz ci mb actions) = actions) := by
  unfold streaming_bulk at herr ⊢
  constructor
  · have h := foldl_chunkFold_perm cfg client hw
      (chunkActions sz ci mb actions) ⟨[], 0, none, []⟩ herr
    simpa [emittedOps, chunkActions_join] using h
  · intro hmr
    have h := foldl_chunkFold_order cfg client hw hmr
      (chunkActions sz ci mb actions) ⟨[], 0, none, []⟩ herr
    simpa [emittedOps, chunkActions_join] using h

/-- Witness for `streaming_bulk_one_outcome_per_item`: a concrete
three-item run through a well-behaved always-accepting client. -/
theorem streaming_bulk_one_outcome_per_item_witness :
    List.Perm
      (emittedOps (streaming_bulk {} alwaysOkClient (fun _ => 1) 2 100
        [docA, docB, docC])) [docA, docB, docC]
    ∧ emittedOps (streaming_bulk {} alwaysOkClient (fun _ => 1) 2 100
        [docA, docB, docC]) = [docA, docB, docC] :=
  ⟨(streaming_bulk_one_outcome_per_item _ _ _ _ _ _ alwaysOkClient_wb
      (by decide)).1,
   (streaming_bulk_one_outcome_per_item _ _ _ _ _ _ alwaysOkClient_wb
      (by decide)).2 rfl⟩

/-! ## Claim C2 — 429-rejected documents are retried -/

/-- The run of `test_rejected_documents_are_retried`: `fail_at=(2,)`,
rejection status 429, `chunk_size=1`, `max_retries=1`. -/
def retriedRun : BulkRun Nat :=
  streaming_bulk
    { max_retries := 1, initial_backoff := 0, raise_on_exception := false,
      raise_on_error := false }
    (failingBulkClient [2] ⟨429, "Rejected!"⟩ alwaysOkClient)
    (fun _ => 1) 1 100000 [docA, docB, docC]

/-- The run of
`test_rejected_documents_are_retried_at_most_max_retries_times`:
`fail_at=(1,2)`, rejection status 429, `chunk_size=1`, `max_retries=1`. -/
def exhaustedItemRun : BulkRun Nat :=
  streaming_bulk
    { max_retries := 1, initial_backoff := 0, raise_on_exception := false,
      raise_on_error := false }
    (failingBulkClient [1, 2] ⟨429, "Rejected!"⟩ alwaysOkClient)
    (fun _ => 1) 1 100000 [docA, docB, docC]

/-- C2: a 429 transport rejection is retried for up to `max_retries`
extra rounds. With `fail_at=(2,)`, `max_retries=1`, `chunk_size=1` on
three items, all outcomes are ok and the client is called exactly 4
times; with `fail_at=(1,2)` the first item exhausts its single retry and
is reported not-ok (while the others succeed), again with 4 calls —
one outcome per item, in input order, nothing raised. -/
theorem streaming_bulk_rejected_documents_are_retried :
    retriedRun.emitted.map Prod.fst = [true, true, true]
    ∧ emittedOps retriedRun = [docA, docB, docC]
    ∧ retriedRun.calls = 4
    ∧ retriedRun.err = none
    ∧ exhaustedItemRun.emitted.map Prod.fst = [false, true, true]
    ∧ emittedOps exhaustedItemRun = [docA, docB, docC]
    ∧ exhaustedItemRun.calls = 4
    ∧ exhaustedItemRun.err = none := by
  refine ⟨by decide, by decide, by decide, by decide, by decide, by decide,
    by decide, by decide⟩

/-! ## Claim C3 — exhausted retries raise the transport error -/

/-- The run of `test_transport_error_is_raised_with_max_retries`:
`fail_at=(1,2,3,4)`, rejection status 429, `raise_on_exception=True`,
`max_retries=3`, two items in a single chunk. -/
def raisedRun : BulkRun Nat :=
  streaming_bulk { max_retries := 3, initial_backoff := 0 }
    (failingBulkClient [1, 2, 3, 4] ⟨429, "Rejected!"⟩ alwaysOkClient)
    (fun _ => 1) 500 100000000 [docA, docB]

/-- C3: with `raise_on_exception=True` and a bulk call that keeps
failing with 429, the retries stop after `max_retries` extra rounds and
the transport error is raised: nothing is emitted, the error surfaces,
and the underlying client was called exactly 4 times (1 + 3 retries). -/
theorem streaming_bulk_transport_error_raised_after_max_retries :
    raisedRun
      = ⟨[], 4, some (.transport ⟨429, "Rejected!"⟩), [0, 0, 0]⟩ := by
  decide

/-! ## Claim C4 — non-rejection transport errors synthesize failures -/

/-- C4: if a bulk call raises a transport error whose status is not the
429 rejection status while `raise_on_exception=False` (and
`raise_on_error=False`), the pipeline neither raises nor retries that
chunk — whatever retry budget `mr` is configured: every item of the
failing chunk is reported exactly once as a synthesized Failure carrying
the original operation (hence its data), the transport error
description, the transport status code and the exception object, while
items of the other chunks are processed normally. Here `fail_at=(2,)`
with `chunk_size=1` on three items yields ok/Failure/ok with exactly 3
underlying calls, no backoff wait and no raised error. -/
theorem streaming_bulk_non_rejection_error_not_retried
    (e : TransportError) (mr : Nat) (h : e.status_code ≠ 429) :
    streaming_bulk
      { max_retries := mr, initial_backoff := 0, raise_on_exception := false,
        raise_on_error := false }
      (failingBulkClient [2] e alwaysOkClient) (fun _ => 1) 1 100000
      [docA, docB, docC]
    = ⟨[(true, .item docA 200),
        (false, .transportFailure docB (errorDescription e) e.status_code e),
        (true, .item docC 200)], 3, none, []⟩ := by
  have hch : chunkActions (fun _ => (1 : Nat)) 1 100000 [docA, docB, docC]
      = [[docA], [docB], [docC]] := by decide
  unfold streaming_bulk
  rw [hch]
  cases mr with
  | zero =>
    simp [chunkFold, runChunk, errorItems, successItems, chunkErr,
      failingBulkClient, alwaysOkClient, synthFailure, h]
  | succ m =>
    simp [chunkFold, runChunk, errorItems, successItems, chunkErr,
      failingBulkClient, alwaysOkClient, synthFailure, h]

/-- Witness for `streaming_bulk_non_rejection_error_not_retried`: the
concrete 599 error of `test_transport_error_can_becaught`, with one
retry round configured. -/
theorem streaming_bulk_non_rejection_error_not_retried_witness :
    streaming_bulk
      { max_retries := 1, initial_backoff := 0, raise_on_exception := false,
        raise_on_error := false }
      (failingBulkClient [2] ⟨599, "Error!"⟩ alwaysOkClient) (fun _ => 1) 1
      100000 [docA, docB, docC]
    = ⟨[(true, .item docA 200),
        (false, .transportFailure docB (errorDescription ⟨599, "Error!"⟩) 599
          ⟨599, "Error!"⟩),
        (true, .item docC 200)], 3, none, []⟩ :=
  streaming_bulk_non_rejection_error_not_retried ⟨599, "Error!"⟩ 1 (by decide)

/-! ## ScanCursor (spec §4.4) -/

/-- Modelled from the spec: one search/scroll response (§6): an optional
cursor id, the `_shards` status counts — each field optional, since
degenerate server responses may omit any of them — and the optional
`hits.hits` page. The hit type `β` is abstract. -/
structure SearchResp (β : Type) where
  scroll_id : Option String := none
  successful : Option Nat := none
  skipped : Option Nat := none
  total : Option Nat := none
  hits : Option (List β) := none
deriving DecidableEq

/-- The hits of a response; a response lacking the hits key contributes
no documents. -/
def hitsOf (r : SearchResp β) : List β := r.hits.getD []

/-- Modelled from the spec: the shard success-threshold check (§4.4
SCROLLING): a page is a partial-shard failure when
`successful + skipped < total`; a missing field counts as 0, so a
`_shards` object lacking `skipped` with `successful = total` passes. -/
def shardFail (r : SearchResp β) : Bool :=
  decide (r.successful.getD 0 + r.skipped.getD 0 < r.total.getD 0)

/-- The scroll loop continues while the last response carried a cursor
id and a non-empty page. -/
def scanCond (r : SearchResp β) : Bool :=
  r.scroll_id.isSome && !(hitsOf r).isEmpty

/-- The cleanup step (§4.4 DONE): release the cursor once iff cleanup is
enabled and a cursor id is at hand. -/
def scanCleanup (cs : Bool) (r : SearchResp β) : Nat :=
  if cs = true ∧ r.scroll_id.isSome = true then 1 else 0

/-- The observable result of a scan: the documents yielded in order, the
number of partial-shard warnings logged, whether a `ScanError` was
raised, and the number of underlying `scroll` and `clear_scroll`
calls. -/
structure ScanRun (β : Type) where
  hits : List β
  warnings : Nat
  err : Bool
  scrollCalls : Nat
  clearCalls : Nat
deriving DecidableEq

/-- Modelled from the spec: the scroll loop (§4.4 SCROLLING/DONE),
driven by the list of responses the server will return to successive
`scroll` calls. While the current response has a cursor id and a
non-empty page: yield the page's hits, then check its shard status —
a partial-shard failure logs a warning unconditionally and, if
`raise_on_error`, raises a scan error (after the page's hits were
yielded); otherwise request the next page. On every exit path — normal
exhaustion, raised scan error, or the response stream ending — the
cursor is released exactly once unless cleanup is disabled. -/
def scanLoop (roe cs : Bool) : SearchResp β → List (SearchResp β) → ScanRun β
  | r, scrolls =>
    if scanCond r = true then
      if shardFail r && roe then
        ⟨hitsOf r, 1, true, 0, scanCleanup cs r⟩
      else
        match scrolls with
        | [] => ⟨hitsOf r, if shardFail r then 1 else 0, false, 0, scanCleanup cs r⟩
        | nxt :: rest =>
          let sub := scanLoop roe cs nxt rest
          ⟨hitsOf r ++ sub.hits, (if shardFail r then 1 else 0) + sub.warnings,
            sub.err, 1 + sub.scrollCalls, sub.clearCalls⟩
    else ⟨[], 0, false, 0, scanCleanup cs r⟩

/-- Modelled from the spec: `scan` (§4.4), observed through the initial
search response and the stream of scroll responses. Fast path: a first
response carrying no cursor id at all yields its hits and terminates
without ever calling `scroll` or the cleanup; otherwise the scroll loop
runs. `roe` is `raise_on_error`, `cs` is `clear_scroll`. -/
def scan (roe cs : Bool) (initial : SearchResp β)
    (scrolls : List (SearchResp β)) : ScanRun β :=
  match initial.scroll_id with
  | none => ⟨hitsOf initial, 0, false, 0, 0⟩
  | some _ => scanLoop roe cs initial scrolls

/-- The pages a non-raising scan consumes: the longest prefix of
`initial :: scrolls` on which the loop keeps going. -/
def processedPages (initial : SearchResp β) (scrolls : List (SearchResp β)) :
    List (SearchResp β) :=
  (initial :: scrolls).takeWhile scanCond

/-- The prefix of `l` up to and including the first element satisfying
`p` (all of `l` when none does). -/
def takeThrough (p : α → Bool) : List α → List α
  | [] => []
  | x :: xs => if p x then [x] else x :: takeThrough p xs

/-- Characterization of a non-raising scan loop: it yields the hits of
every processed page in order, logs one warning per failing processed
page, and never raises. -/
theorem scanLoop_false_spec (cs : Bool) :
    ∀ (scrolls : List (SearchResp β)) (r : SearchResp β),
      (scanLoop false cs r scrolls).hits
          = (((r :: scrolls).takeWhile scanCond).map hitsOf).flatten
      ∧ (scanLoop false cs r scrolls).warnings
          = (((r :: scrolls).takeWhile scanCond).filter shardFail).length
      ∧ (scanLoop false cs r scrolls).err = false := by
  intro scrolls
  induction scrolls with
  | nil =>
    intro r
    cases hcond : scanCond r with
    | false =>
      have htwn : List.takeWhile scanCond [r] = [] :=
        List.takeWhile_cons_of_neg (by simp [hcond])
      simp [scanLoop, hcond, htwn]
    | true =>
      have htw := List.takeWhile_cons_of_pos (l := ([] : List (SearchResp β))) hcond
      cases hsf : shardFail r with
      | false => simp [scanLoop, hcond, hsf, htw, List.filter_cons, List.filter_nil]
      | true => simp [scanLoop, hcond, hsf, htw, List.filter_cons, List.filter_nil]
  | cons nxt rest ih =>
    intro r
    cases hcond : scanCond r with
    | false =>
      have htwn : List.takeWhile scanCond (r :: nxt :: rest) = [] :=
        List.takeWhile_cons_of_neg (by simp [hcond])
      simp [scanLoop, hcond, htwn]
    | true =>
      have htw := List.takeWhile_cons_of_pos (l := nxt :: rest) hcond
      have hsub := ih nxt
      cases hsf : shardFail r with
      | false =>
        simp [scanLoop, hcond, hsf, htw, List.filter_cons,
          hsub.1, hsub.2.1, hsub.2.2]
      | true =>
        simp [scanLoop, hcond, hsf, htw, List.filter_cons,
          hsub.1, hsub.2.1, hsub.2.2, Nat.add_comm]

/-- Characterization of a raising scan loop: it yields the hits of the
processed pages up to and including the first partial-shard failure,
raises iff some processed page fails, and logs the one warning of that
page before raising. -/
theorem scanLoop_true_spec (cs : Bool) :
    ∀ (scrolls : List (SearchResp β)) (r : SearchResp β),
      (scanLoop true cs r scrolls).hits
          = ((takeThrough shardFail ((r :: scrolls).takeWhile scanCond)).map
              hitsOf).flatten
      ∧ (scanLoop true cs r scrolls).err
          = ((r :: scrolls).takeWhile scanCond).any shardFail
      ∧ (scanLoop true cs r scrolls).warnings
          = (if ((r :: scrolls).takeWhile scanCond).any shardFail
             then 1 else 0) := by
  intro scrolls
  induction scrolls with
  | nil =>
    intro r
    cases hcond : scanCond r with
    | false =>
      have htwn : List.takeWhile scanCond [r] = [] :=
        List.takeWhile_cons_of_neg (by simp [hcond])
      simp [scanLoop, hcond, htwn, takeThrough]
    | true =>
      have htw := List.takeWhile_cons_of_pos (l := ([] : List (SearchResp β))) hcond
      cases hsf : shardFail r with
      | false =>
        simp [scanLoop, hcond, hsf, htw, takeThrough, List.any_cons]
      | true =>
        simp [scanLoop, hcond, hsf, htw, takeThrough, List.any_cons]
  | cons nxt rest ih =>
    intro r
    cases hcond : scanCond r with
    | false =>
      have htwn : List.takeWhile scanCond (r :: nxt :: rest) = [] :=
        List.takeWhile_cons_of_neg (by simp [hcond])
      simp [scanLoop, hcond, htwn, takeThrough]
    | true =>
      have htw := List.takeWhile_cons_of_pos (l := nxt :: rest) hcond
      have hsub := ih nxt
      cases hsf : shardFail r with
      | false =>
        simp [scanLoop, hcond, hsf, htw, takeThrough, List.any_cons,
          hsub.1, hsub.2.1, hsub.2.2]
      | true =>
        simp [scanLoop, hcond, hsf, htw, takeThrough, List.any_cons]

/-- `takeThrough p l` is a prefix of `l`. -/
theorem takeThrough_append (p : α → Bool) :
    ∀ l : List α, ∃ t, l = takeThrough p l ++ t := by
  intro l
  induction l with
  | nil => exact ⟨[], rfl⟩
  | cons x xs ih =>
    cases hx : p x with
    | true => exact ⟨xs, by simp [takeThrough, hx]⟩
    | false =>
      obtain ⟨t, ht⟩ := ih
      exact ⟨t, by simp [takeThrough, hx]; exact ht⟩

/-! ## Claim C5 — partial-shard failure policy -/

/-- C5: when a page consumed by `scan` reports
`successful + skipped < total` shards, the warning is logged
unconditionally — with `raise_on_error=False` the run never raises and
logs one warning per failing processed page; with `raise_on_error=True`
a scan error is raised iff some processed page fails, that page's
warning is still logged, and the raise happens only after the hits of
the failing page have been yielded: the raising run yields exactly the
pages up to and including the first failing one, a prefix of the
non-raising run's hits — hits already yielded are never revoked. -/
theorem scan_shard_failure_policy (cs : Bool) (sid : String)
    (initial : SearchResp β) (scrolls : List (SearchResp β))
    (hid : initial.scroll_id = some sid) :
    (scan false cs initial scrolls).err = false
    ∧ (scan false cs initial scrolls).hits
        = ((processedPages initial scrolls).map hitsOf).flatten
    ∧ (scan false cs initial scrolls).warnings
        = ((processedPages initial scrolls).filter shardFail).length
    ∧ (scan true cs initial scrolls).err
        = (processedPages initial scrolls).any shardFail
    ∧ (scan true cs initial scrolls).hits
        = ((takeThrough shardFail (processedPages initial scrolls)).map
            hitsOf).flatten
    ∧ (scan true cs initial scrolls).warnings
        = (if (processedPages initial scrolls).any shardFail then 1 else 0)
    ∧ List.IsPrefix (scan true cs initial scrolls).hits
        (scan false cs initial scrolls).hits := by
  have hsc : ∀ roe, scan roe cs initial scrolls = scanLoop roe cs initial scrolls := by
    intro roe
    simp [scan, hid]
  have hf := scanLoop_false_spec cs scrolls initial
  have ht := scanLoop_true_spec cs scrolls initial
  simp only [hsc, processedPages]
  refine ⟨hf.2.2, hf.1, hf.2.1, ht.2.1, ht.1, ht.2.2, ?_⟩
  rw [ht.1, hf.1]
  obtain ⟨t, htt⟩ :=
    takeThrough_append shardFail ((initial :: scrolls).takeWhile scanCond)
  refine ⟨(t.map hitsOf).flatten, ?_⟩
  conv_rhs => rw [htt]
  simp

/-- The test-suite mock pages: initial search and scroll pages each
reporting 4 of 5 shards successful. -/
def pageInit : SearchResp Nat :=
  { scroll_id := some "dummy_id", successful := some 4, skipped := some 0,
    total := some 5, hits := some [1] }

/-- Mock scroll page carrying one document. -/
def pageMid : SearchResp Nat :=
  { scroll_id := some "dummy_id", successful := some 4, skipped := some 0,
    total := some 5, hits := some [42] }

/-- Mock final scroll page with no hits. -/
def pageEnd : SearchResp Nat :=
  { scroll_id := some "dummy_id", successful := some 4, skipped := some 0,
    total := some 5, hits := some [] }

/-- Witness for `scan_shard_failure_policy` at the mock scenario of
`TestScan.test_initial_search_error`. -/
theorem scan_shard_failure_policy_witness :
    (scan false true pageInit [pageMid, pageEnd]).err = false
    ∧ (scan false true pageInit [pageMid, pageEnd]).hits
        = ((processedPages pageInit [pageMid, pageEnd]).map hitsOf).flatten
    ∧ (scan false true pageInit [pageMid, pageEnd]).warnings
        = ((processedPages pageInit [pageMid, pageEnd]).filter shardFail).length
    ∧ (scan true true pageInit [pageMid, pageEnd]).err
        = (processedPages pageInit [pageMid, pageEnd]).any shardFail
    ∧ (scan true true pageInit [pageMid, pageEnd]).hits
        = ((takeThrough shardFail (processedPages pageInit [pageMid, pageEnd])).map
            hitsOf).flatten
    ∧ (scan true true pageInit [pageMid, pageEnd]).warnings
        = (if (processedPages pageInit [pageMid, pageEnd]).any shardFail
           then 1 else 0)
    ∧ List.IsPrefix (scan true true pageInit [pageMid, pageEnd]).hits
        (scan false true pageInit [pageMid, pageEnd]).hits :=
  scan_shard_failure_policy true "dummy_id" pageInit [pageMid, pageEnd] rfl

/-! ## Claim C6 — the cursor is released exactly once -/

/-- With cleanup disabled the loop never calls `clear_scroll`. -/
theorem scanLoop_clear_off (roe : Bool) :
    ∀ (scrolls : List (SearchResp β)) (r : SearchResp β),
      (scanLoop roe false r scrolls).clearCalls = 0 := by
  intro scrolls
  induction scrolls with
  | nil =>
    intro r
    cases hcond : scanCond r with
    | false => simp [scanLoop, hcond, scanCleanup]
    | true =>
      cases hsr : shardFail r && roe with
      | true => simp [scanLoop, hcond, hsr, scanCleanup]
      | false => simp [scanLoop, hcond, hsr, scanCleanup]
  | cons nxt rest ih =>
    intro r
    cases hcond : scanCond r with
    | false => simp [scanLoop, hcond, scanCleanup]
    | true =>
      cases hsr : shardFail r && roe with
      | true => simp [scanLoop, hcond, hsr, scanCleanup]
      | false => simp [scanLoop, hcond, hsr, scanCleanup, ih nxt]

/-- With cleanup enabled and cursor ids present throughout, the loop
calls `clear_scroll` exactly once, on every exit path. -/
theorem scanLoop_clear_on (roe : Bool) :
    ∀ (scrolls : List (SearchResp β)) (r : SearchResp β),
      (∀ x ∈ r :: scrolls, x.scroll_id.isSome = true) →
      (scanLoop roe true r scrolls).clearCalls = 1 := by
  intro scrolls
  induction scrolls with
  | nil =>
    intro r h
    have hr := h r (by simp)
    cases hcond : scanCond r with
    | false => simp [scanLoop, hcond, scanCleanup, hr]
    | true =>
      cases hsr : shardFail r && roe with
      | true => simp [scanLoop, hcond, hsr, scanCleanup, hr]
      | false => simp [scanLoop, hcond, hsr, scanCleanup, hr]
  | cons nxt rest ih =>
    intro r h
    have hr := h r (by simp)
    have hrest : ∀ x ∈ nxt :: rest, x.scroll_id.isSome = true := by
      intro x hx
      exact h x (by simp [hx])
    cases hcond : scanCond r with
    | false => simp [scanLoop, hcond, scanCleanup, hr]
    | true =>
      cases hsr : shardFail r && roe with
      | true => simp [scanLoop, hcond, hsr, scanCleanup, hr]
      | false => simp [scanLoop, hcond, hsr, scanCleanup, ih nxt hrest]

/-- C6: a scan run to termination with `clear_scroll=False` never calls
`clear_scroll`; with cleanup enabled and a scroll cursor obtained (and
refreshed) throughout, `clear_scroll` is called exactly once — on normal
exhaustion as well as on the scan-error exit path (`roe` ranges over
both `raise_on_error` modes). -/
theorem scan_releases_cursor_exactly_once (roe : Bool)
    (initial : SearchResp β) (scrolls : List (SearchResp β)) :
    (scan roe false initial scrolls).clearCalls = 0
    ∧ ((∀ r ∈ initial :: scrolls, r.scroll_id.isSome = true) →
        (scan roe true initial scrolls).clearCalls = 1) := by
  constructor
  · cases hid : initial.scroll_id with
    | none => simp [scan, hid]
    | some sid =>
      simp only [scan, hid]
      exact scanLoop_clear_off roe scrolls initial
  · intro h
    cases hid : initial.scroll_id with
    | none =>
      have hi := h initial (by simp)
      rw [hid] at hi
      simp at hi
    | some sid =>
      simp only [scan, hid]
      exact scanLoop_clear_on roe scrolls initial h

/-- Witness for `scan_releases_cursor_exactly_once`: the mock run that
raises a scan error (4 of 5 shards) still clears exactly once, and never
clears when `clear_scroll=False`. -/
theorem scan_releases_cursor_exactly_once_witness :
    (scan true false pageInit [pageMid, pageEnd]).clearCalls = 0
    ∧ (scan true true pageInit [pageMid, pageEnd]).clearCalls = 1 :=
  ⟨(scan_releases_cursor_exactly_once true pageInit [pageMid, pageEnd]).1,
   (scan_releases_cursor_exactly_once true pageInit [pageMid, pageEnd]).2
     (by decide)⟩

/-! ## Claim C8 — no-cursor fast route -/

/-- C8: if the initial search response carries no scroll id, `scan`
yields exactly the first response's hits (possibly none) and terminates
without ever calling `scroll` or `clear_scroll`. -/
theorem scan_no_cursor_fast_route (roe cs : Bool) (initial : SearchResp β)
    (scrolls : List (SearchResp β)) (h : initial.scroll_id = none) :
    scan roe cs initial scrolls = ⟨hitsOf initial, 0, false, 0, 0⟩ := by
  simp [scan, h]

/-- Witness for `scan_no_cursor_fast_route`, mirroring
`test_no_scroll_id_fast_route`. -/
theorem scan_no_cursor_fast_route_witness :
    scan true true ({ hits := some [7, 8] } : SearchResp Nat) []
      = ⟨[7, 8], 0, false, 0, 0⟩ :=
  scan_no_cursor_fast_route true true _ [] rfl

/-! ## Claim C10 — totality on degenerate responses -/

/-- C10: `scan` is total on degenerate server responses: a response
lacking the hits key yields no documents and no error (instead of
raising), and a `_shards` object lacking the `skipped` field counts
`skipped` as 0, so a page with `successful = total` is not a
partial-shard failure. -/
theorem scan_degenerate_responses_safe :
    (∀ (roe cs : Bool) (sid : String) (su sk tot : Option Nat)
        (scrolls : List (SearchResp Nat)),
      scan roe cs ⟨some sid, su, sk, tot, none⟩ scrolls
        = ⟨[], 0, false, 0, if cs = true then 1 else 0⟩)
    ∧ (∀ r : SearchResp Nat, r.skipped = none → r.successful = r.total →
        shardFail r = false) := by
  constructor
  · intro roe cs sid su sk tot scrolls
    have hcond : scanCond (⟨some sid, su, sk, tot, none⟩ : SearchResp Nat)
        = false := by
      simp [scanCond, hitsOf]
    cases scrolls with
    | nil => simp [scan, scanLoop, hcond, scanCleanup]
    | cons a rest => simp [scan, scanLoop, hcond, scanCleanup]
  · intro r h1 h2
    simp [shardFail, h1, h2]

/-- Witness for `scan_degenerate_responses_safe`: the mock responses of
`test_async_scan_with_missing_hits_key` and
`test_shards_no_skipped_field`. -/
theorem scan_degenerate_responses_safe_witness :
    scan true true ({ scroll_id := some "dummy_scroll_id" } : SearchResp Nat)
        [{ scroll_id := some "dummy_scroll_id" }]
      = ⟨[], 0, false, 0, 1⟩
    ∧ shardFail ({ scroll_id := some "d", successful := some 5,
                   total := some 5, hits := some [1] } : SearchResp Nat)
        = false :=
  ⟨scan_degenerate_responses_safe.1 true true "dummy_scroll_id" none none none _,
   scan_degenerate_responses_safe.2 _ rfl rfl⟩

/-! ## Reindexer (spec §4.5) -/

/-- A stored document: `_id`, routing and `_source` payload (the payload
type is abstract, covering parent/child join fields). -/
structure SDoc (α : Type) where
  id : Nat
  routing : Option Nat := none
  source : α
deriving DecidableEq

/-- Pagination worker, with explicit fuel (one page per step). -/
def paginateAux (size : Nat) : Nat → List α → List (List α)
  | _, [] => []
  | 0, _ :: _ => []
  | fuel + 1, x :: xs =>
    (x :: xs).take size :: paginateAux size fuel ((x :: xs).drop size)

/-- Split a list into consecutive pages of `size` documents — the
server's scroll pagination of a result set. -/
def paginate (size : Nat) (l : List α) : List (List α) :=
  paginateAux size l.length l

/-- A healthy scroll response carrying one page. -/
def pageResp (pg : List β) : SearchResp β :=
  { scroll_id := some "scan_scroll_id", successful := some 1,
    skipped := some 0, total := some 1, hits := some pg }

/-- The responses a healthy server returns for a matched result set: the
initial search response and the successive scroll responses, finishing
with an empty page. -/
def serverResps (pages : List (List β)) :
    SearchResp β × List (SearchResp β) :=
  match pages with
  | [] => (pageResp [], [])
  | pg :: rest => (pageResp pg, rest.map pageResp ++ [pageResp []])

/-- The documents a scan over a healthy server yields for a result
set. -/
def scanDocs (size : Nat) (docs : List β) : List β :=
  (scan true true (serverResps (paginate size docs)).1
    (serverResps (paginate size docs)).2).hits

/-- Modelled from the spec: the operation the Reindexer builds for one
scanned document (§4.5): `_op_type=index` into the target index, same
`_id`, body = the original `_source` unchanged, routing taken unchanged
from the source document (preserving parent/child join routing). -/
def docToOp (target : String) (d : SDoc α) : Op α :=
  { op_type := "index", index := target, id := some d.id,
    routing := d.routing, body := some d.source }

/-- The server-side effect of one bulk `index` operation on an index:
upsert by `_id` (an idempotent overwrite with identical content). -/
def applyOp (tgt : List (SDoc α)) (op : Op α) : List (SDoc α) :=
  match op.id, op.body with
  | some i, some b =>
    if tgt.any fun d => d.id = i then
      tgt.map fun d => if d.id = i then ⟨i, op.routing, b⟩ else d
    else tgt ++ [⟨i, op.routing, b⟩]
  | _, _ => tgt

/-- Modelled from the spec: `reindex` (§4.5) — scan the documents of the
source index matched by the query, map each to an index operation on the
target index, chunk the operations (§4.1) and apply each batch in order
to the (initially empty) target index. -/
def reindex (target : String) (size csize mb : Nat) (p : SDoc α → Bool)
    (src : List (SDoc α)) : List (SDoc α) :=
  (chunkActions (fun _ => 1) csize mb
      ((scanDocs size (src.filter p)).map (docToOp target))).foldl
    (fun tgt ch => ch.foldl applyOp tgt) []

/-- Pagination splits without loss: the pages concatenate back to the
input. -/
theorem paginateAux_flatten (size : Nat) (hs : 0 < size) :
    ∀ (fuel : Nat) (l : List α), l.length ≤ fuel →
      (paginateAux size fuel l).flatten = l := by
  intro fuel
  induction fuel with
  | zero =>
    intro l hl
    cases l with
    | nil => rfl
    | cons x xs => simp at hl
  | succ n ih =>
    intro l hl
    cases l with
    | nil => rfl
    | cons x xs =>
      simp only [paginateAux, List.flatten_cons]
      rw [ih]
      · exact List.take_append_drop size (x :: xs)
      · simp only [List.length_drop, List.length_cons]
        simp only [List.length_cons] at hl
        omega

/-- Every page produced by pagination is non-empty. -/
theorem paginateAux_ne_nil (size : Nat) (hs : 0 < size) :
    ∀ (fuel : Nat) (l : List α) (pg : List α),
      pg ∈ paginateAux size fuel l → pg ≠ [] := by
  intro fuel
  induction fuel with
  | zero =>
    intro l pg h
    cases l with
    | nil => simp [paginateAux] at h
    | cons x xs => simp [paginateAux] at h
  | succ n ih =>
    intro l pg h
    cases l with
    | nil => simp [paginateAux] at h
    | cons x xs =>
      simp only [paginateAux, List.mem_cons] at h
      cases h with
      | inl h =>
        subst h
        cases size with
        | zero => omega
        | succ m => simp [List.take_succ_cons]
      | inr h => exact ih _ _ h

/-- A scan over the healthy responses for non-empty pages yields their
concatenation in order, raises nothing, warns nothing, makes one scroll
call per page plus the final empty one, and cleans up once iff cleanup
is enabled. -/
theorem scanLoop_pages (roe cs : Bool) :
    ∀ (ps : List (List β)) (pg : List β), pg ≠ [] → (∀ q ∈ ps, q ≠ []) →
      scanLoop roe cs (pageResp pg) (ps.map pageResp ++ [pageResp []])
        = ⟨pg ++ ps.flatten, 0, false, ps.length + 1,
           if cs = true then 1 else 0⟩ := by
  intro ps
  induction ps with
  | nil =>
    intro pg hpg _
    have hcond : scanCond (pageResp pg) = true := by
      simp [scanCond, pageResp, hitsOf, hpg]
    have hcond2 : scanCond (pageResp ([] : List β)) = false := by
      simp [scanCond, pageResp, hitsOf]
    have hsf : shardFail (pageResp pg) = false := by simp [shardFail, pageResp]
    have hh : hitsOf (pageResp pg) = pg := rfl
    have hcl : scanCleanup cs (pageResp ([] : List β))
        = if cs = true then 1 else 0 := by
      simp [scanCleanup, pageResp]
    simp [scanLoop, hcond, hcond2, hsf, hh, hcl]
  | cons q qs ih =>
    intro pg hpg hqs
    have hcond : scanCond (pageResp pg) = true := by
      simp [scanCond, pageResp, hitsOf, hpg]
    have hsf : shardFail (pageResp pg) = false := by simp [shardFail, pageResp]
    have hq : q ≠ [] := hqs q (by simp)
    have hrest : ∀ x ∈ qs, x ≠ [] := fun x hx => hqs x (by simp [hx])
    have hsub := ih q hq hrest
    have hh : hitsOf (pageResp pg) = pg := rfl
    simp only [List.map_cons, List.cons_append]
    simp [scanLoop, hcond, hsf, hsub, hh, Nat.add_comm]

/-- A scan over the healthy server responses for a result set yields
exactly the result set. -/
theorem scanDocs_eq (size : Nat) (hs : 0 < size) (docs : List β) :
    scanDocs size docs = docs := by
  have hfl := paginateAux_flatten size hs docs.length docs le_rfl
  unfold scanDocs serverResps paginate
  cases hpg : paginateAux size docs.length docs with
  | nil =>
    rw [hpg] at hfl
    simp only [List.flatten_nil] at hfl
    have hcond : scanCond (pageResp ([] : List β)) = false := by
      simp [scanCond, pageResp, hitsOf]
    rw [← hfl]
    have hid : (pageResp ([] : List β)).scroll_id = some "scan_scroll_id" := rfl
    simp [scan, hid, scanLoop, hcond]
  | cons pg rest =>
    rw [hpg] at hfl
    have hne : ∀ q ∈ pg :: rest, q ≠ [] := by
      intro q hq
      apply paginateAux_ne_nil size hs docs.length docs
      rw [hpg]
      exact hq
    have h1 : pg ≠ [] := hne pg (by simp)
    have h2 : ∀ q ∈ rest, q ≠ [] := fun q hq => hne q (by simp [hq])
    have hsc : scan true true (pageResp pg) (rest.map pageResp ++ [pageResp []])
        = scanLoop true true (pageResp pg) (rest.map pageResp ++ [pageResp []]) := by
      simp [scan, pageResp]
    simp only [hsc, scanLoop_pages true true rest pg h1 h2]
    simpa using hfl

/-- Applying the index operations of documents with fresh, pairwise
distinct ids appends exactly those documents, in order. -/
theorem applyOp_fold (target : String) :
    ∀ (docs : List (SDoc α)) (acc : List (SDoc α)),
      (docs.map SDoc.id).Nodup →
      (∀ d ∈ docs, ∀ a ∈ acc, a.id ≠ d.id) →
      (docs.map (docToOp target)).foldl applyOp acc = acc ++ docs := by
  intro docs
  induction docs with
  | nil => intro acc _ _; simp
  | cons d rest ih =>
    intro acc hnd hdisj
    simp only [List.map_cons, List.foldl_cons]
    have hnot : ¬(acc.any fun a => a.id = d.id) = true := by
      simp only [List.any_eq_true, decide_eq_true_eq, not_exists]
      intro a
      intro ⟨ha, he⟩
      exact hdisj d (by simp) a ha he
    have happ : applyOp acc (docToOp target d) = acc ++ [d] := by
      simp only [applyOp, docToOp]
      rw [if_neg hnot]
    rw [happ, ih (acc ++ [d]) ?_ ?_]
    · simp
    · exact (List.nodup_cons.mp hnd).2
    · intro d2 hd2 a ha
      rcases List.mem_append.mp ha with h | h
      · exact hdisj d2 (List.mem_cons_of_mem _ hd2) a h
      · have ha2 : a = d := by simpa using h
        subst ha2
        intro he
        exact (List.nodup_cons.mp hnd).1 (he ▸ List.mem_map_of_mem SDoc.id hd2)

/-- Applying the batches in order is applying the concatenated
operations. -/
theorem foldl_over_chunks (f : γ → α → γ) :
    ∀ (chunks : List (List α)) (init : γ),
      chunks.foldl (fun t ch => ch.foldl f t) init
        = (chunks.flatten).foldl f init := by
  intro chunks
  induction chunks with
  | nil => intro init; rfl
  | cons c cs ih =>
    intro init
    simp only [List.foldl_cons, List.flatten_cons, List.foldl_append]
    exact ih _

/-! ## Claim C7 — reindex copies every matched document -/

/-- C7: `reindex` copies every document matched by the query from the
source to the target index as an `index` operation with the same `_id`,
the `_source` unchanged and the routing preserved: for distinct source
ids, the resulting target index is exactly the filtered source — in
particular it holds exactly as many documents as match the filter, and
every matched document round-trips with its original `_source` and
routing. -/
theorem reindex_copies_matched_documents (target : String)
    (size csize mb : Nat) (p : SDoc α → Bool) (src : List (SDoc α))
    (hs : 0 < size) (hnd : (src.map SDoc.id).Nodup) :
    reindex target size csize mb p src = src.filter p
    ∧ (reindex target size csize mb p src).length = (src.filter p).length
    ∧ ∀ d ∈ src.filter p, d ∈ reindex target size csize mb p src := by
  have hmain : reindex target size csize mb p src = src.filter p := by
    unfold reindex
    rw [foldl_over_chunks, chunkActions_join, scanDocs_eq size hs]
    have hnd2 : ((src.filter p).map SDoc.id).Nodup :=
      List.Nodup.sublist (List.Sublist.map SDoc.id (List.filter_sublist src)) hnd
    have h := applyOp_fold target (src.filter p) [] hnd2
      (by intro d _ a ha; simp at ha)
    simpa using h
  exact ⟨hmain, by rw [hmain], by intro d hd; rw [hmain]; exact hd⟩

/-- The 100 source documents of the reindex tests: ids 0–99, routing on
the even ones, an opaque payload. -/
def srcDocs : List (SDoc Nat) :=
  (List.range 100).map fun n =>
    { id := n, routing := if n % 2 = 0 then some n else none, source := n * 3 }

/-- The filter matching 50 of the 100 documents. -/
def evenDoc (d : SDoc Nat) : Bool := d.id % 2 = 0

/-- Witness for `reindex_copies_matched_documents`: 100 documents, a
filter matching 50 of them, the target ends up with exactly those 50. -/
theorem reindex_copies_matched_documents_witness :
    reindex "prod_index" 3 4 100000 evenDoc srcDocs = srcDocs.filter evenDoc
    ∧ (reindex "prod_index" 3 4 100000 evenDoc srcDocs).length = 50 := by
  have h := reindex_copies_matched_documents "prod_index" 3 4 100000 evenDoc
    srcDocs (by decide) (by decide)
  exact ⟨h.1, by rw [h.2.1]; decide⟩

/-! ## Operation expansion and the no-mutation frame (spec §3) -/

/-- A scalar value of a caller-supplied action mapping. -/
inductive Val where
  | str : String → Val
  | num : Nat → Val
deriving DecidableEq

/-- A caller-supplied action mapping, as an association list. -/
abbrev ADict := List (String × Val)

/-- Modelled from the spec: operation expansion (§3 Operation): the
`_op_type` key (default `index`) selects the action; the remaining
top-level keys starting with `_` are routed into the action line, all
others into the source/data line; a `delete` carries no data line. The
caller's mapping is only read — the action and data lines are freshly
built values. -/
def expand_action (d : ADict) : (String × ADict) × Option ADict :=
  let op_type :=
    match (d.find? fun kv => kv.1 = "_op_type").map Prod.snd with
    | some (.str s) => s
    | _ => "index"
  let meta := d.filter fun kv => kv.1 ≠ "_op_type" ∧ kv.1.startsWith "_"
  let body := d.filter fun kv => !kv.1.startsWith "_"
  ((op_type, meta), if op_type = "delete" then none else some body)

/-- The pipeline operation built from one expanded action mapping. -/
def opOfDict (d : ADict) : Op ADict :=
  { op_type := (expand_action d).1.1
    index :=
      match ((expand_action d).1.2.find? fun kv => kv.1 = "_index").map
          Prod.snd with
      | some (.str s) => s
      | _ => ""
    id :=
      match ((expand_action d).1.2.find? fun kv => kv.1 = "_id").map
          Prod.snd with
      | some (.num n) => some n
      | _ => none
    routing :=
      match ((expand_action d).1.2.find? fun kv => kv.1 = "_routing").map
          Prod.snd with
      | some (.num n) => some n
      | _ => none
    body := (expand_action d).2 }

/-- Modelled from the spec: the bulk pipeline run on caller-supplied
action mappings, with the caller's store threaded through explicitly:
each mapping is expanded (a read) into the operation fed to the
pipeline, and the store as the pipeline leaves it is returned alongside
the run. -/
def streaming_bulkOnActions (cfg : BulkCfg) (client : Client ADict)
    (sz : Op ADict → Nat) (chunk_size max_chunk_bytes : Nat)
    (actions : List ADict) : BulkRun ADict × List ADict :=
  (streaming_bulk cfg client sz chunk_size max_chunk_bytes
    (actions.map opOfDict), actions)

/-! ## Claim C9 — caller-supplied operations are never mutated -/

/-- C9: the bulk pipeline never mutates the caller-supplied operation
mappings — §3's "immutable once handed to Chunker". In this pure
state-threading embedding the pipeline only reads the store (through
`expand_action`/`opOfDict`), so the store it returns after a completed
run is identically the caller's list, for every configuration, client,
sizing and actions sequence. -/
theorem streaming_bulk_actions_remain_unchanged (cfg : BulkCfg)
    (client : Client ADict) (sz : Op ADict → Nat) (ci mb : Nat)
    (actions : List ADict) :
    (streaming_bulkOnActions cfg client sz ci mb actions).2 = actions := rfl
